import Mathlib

/-!
Shallow embedding of the change-detection and notification-deduplication
engine of `src/index.js` (a web-page watcher that notifies a chat once per
distinct item).  JavaScript objects used as string-keyed maps are embedded
as association lists; JavaScript numbers appearing as epoch-millisecond
timestamps are embedded as `Int`; fallible external calls (page renderer,
notifier) are embedded as explicit outcome parameters.
-/

namespace Watch

/-- Association-list model of a JavaScript object used as a string-keyed
map: `lookupA m k` is `m[k]` (`none` for `undefined`). -/
def lookupA {α : Type} : List (String × α) → String → Option α
  | [], _ => none
  | (k', v) :: t, k => if k' = k then some v else lookupA t k

/-- Association-list model of the JavaScript assignment `m[k] = v`:
replaces the binding if the key is present, appends it otherwise. -/
def insertA {α : Type} : List (String × α) → String → α → List (String × α)
  | [], k, v => [(k, v)]
  | (k', v') :: t, k, v =>
      if k' = k then (k, v) :: t else (k', v') :: insertA t k v

/-!
Section: the content digest (`hash`, src/index.js lines 60-69).
In `h = ((h << 5) - h) + chr; h |= 0` every step truncates the accumulator
to a 32-bit signed integer (`<< ` and `|` operate on Int32 in JavaScript;
the intermediate sum is exact in a double).
-/

/-- JavaScript `ToInt32`: reduce modulo `2^32` into `[-2^31, 2^31)`. -/
def toInt32 (n : Int) : Int :=
  let m := n % 4294967296
  if m < 2147483648 then m else m - 4294967296

/-- One loop iteration of `hash`: `h = ((h << 5) - h) + chr; h |= 0`. -/
def hashStep (h : Int) (c : Nat) : Int :=
  toInt32 (toInt32 (h * 32) - h + c)

/-- The digest `hash(str)` from src/index.js: `'0'` for the empty (falsy)
string, otherwise the decimal rendering of the Int32 accumulator folded
over the character codes. -/
def hash (s : String) : String :=
  if s = "" then "0"
  else toString (s.toList.foldl (fun h c => hashStep h c.toNat) 0)

/-!
Section: `normalizeHref` (src/index.js lines 71-78).
The source calls the platform WHATWG `URL` constructor and returns
`u.origin + u.pathname` on success, the input on parse failure.  The `URL`
class is a platform builtin, not repository code; `parseURL` below models
it for absolute `scheme://host[:port]/path[?query][#fragment]` hrefs:
scheme (basic-latin letters) and host are lowercased, the query string and
fragment are dropped, a missing path becomes `/`.  Simplifications against
the full WHATWG algorithm (percent-encoding, userinfo stripping, default
port elision, backslash tolerance) are irrelevant to the claims checked
here.
-/

/-- Letters allowed in a URL scheme (basic latin, either case). -/
def schemeChar (c : Char) : Bool :=
  (65 ≤ c.toNat && c.toNat ≤ 90) || (97 ≤ c.toNat && c.toNat ≤ 122)

/-- A character that keeps the host running: anything up to the first
path, query or fragment delimiter. -/
def hostChar (c : Char) : Bool :=
  c != '/' && c != '?' && c != '#'

/-- A character that keeps the path running: anything up to the first
query or fragment delimiter. -/
def pathChar (c : Char) : Bool :=
  c != '?' && c != '#'

/-- Model of the platform `URL` constructor restricted to the fields
`normalizeHref` reads: returns `(origin, pathname)` on success. -/
def parseURL (cs : List Char) : Option (List Char × List Char) :=
  let sch := cs.takeWhile (fun c => c != ':')
  let rest := cs.dropWhile (fun c => c != ':')
  if sch.isEmpty then none
  else if !sch.all schemeChar then none
  else if rest.take 3 = [':', '/', '/'] then
    let rest2 := rest.drop 3
    let host := rest2.takeWhile hostChar
    if host.isEmpty then none
    else
      let rest3 := rest2.dropWhile hostChar
      let path := if rest3.head? = some '/' then rest3.takeWhile pathChar else ['/']
      some (sch.map Char.toLower ++ ':' :: '/' :: '/' :: host.map Char.toLower, path)
  else none

/-- The function `normalizeHref(href)` from src/index.js: `origin +
pathname` when the href parses as an absolute URL, the input string
unchanged otherwise (the source's `href || ''` equals `href` for every
string input). -/
def normalizeHref (href : String) : String :=
  match parseURL href.toList with
  | some (o, p) => String.mk (o ++ p)
  | none => href

/-!
Section: keyword rules (src/index.js lines 24-30 and 80-84).
-/

/-- Split on a separator character, model of JavaScript
`str.split(sep)`: `""` yields `[""]`, consecutive separators yield empty
pieces. -/
def splitChar (sep : Char) : List Char → List (List Char)
  | [] => [[]]
  | c :: t =>
      match splitChar sep t with
      | [] => [[]]
      | cur :: rest => if c == sep then [] :: cur :: rest else (c :: cur) :: rest

/-- Model of JavaScript `str.split(sep)` on strings. -/
def splitS (s : String) (sep : Char) : List String :=
  (splitChar sep s.toList).map String.mk

/-- The whitespace class trimmed by the model of `str.trim()` (ASCII
whitespace; JavaScript also trims some rarer Unicode spaces, which no
claim exercises). -/
def isSpaceChar (c : Char) : Bool :=
  c == ' ' || c == '\t' || c == '\r' || c == '\n'

/-- Model of JavaScript `str.trim()`. -/
def trimS (s : String) : String :=
  String.mk (((s.toList.dropWhile isSpaceChar).reverse.dropWhile isSpaceChar).reverse)

/-- Model of JavaScript `str.toLowerCase()` (basic-latin case mapping; no
claim exercises non-latin case folding). -/
def lowerS (s : String) : String :=
  String.mk (s.toList.map Char.toLower)

/-- Model of JavaScript `haystack.includes(needle)`, prefix test. -/
def isPrefOf : List Char → List Char → Bool
  | [], _ => true
  | _ :: _, [] => false
  | a :: as, b :: bs => a == b && isPrefOf as bs

/-- Model of JavaScript `hay.includes(nee)`: some suffix of `hay` starts
with `nee`. -/
def strIncl (nee : List Char) : List Char → Bool
  | [] => isPrefOf nee []
  | b :: t => isPrefOf nee (b :: t) || strIncl nee t

/-- Rule-set parsing from src/index.js lines 24-30: split the raw keyword
string on `,` into rules (trimmed, empty rule strings dropped), then split
each rule on `&` into lowercased trimmed tokens, dropping empty tokens. -/
def parseRules (raw : String) : List (List String) :=
  (((splitS raw ',').map trimS).filter (fun s => s != "")).map
    (fun rule => ((splitS (lowerS rule) '&').map trimS).filter (fun s => s != ""))

/-- The predicate `matchesKeywords(text)` from src/index.js lines 80-84,
with the global `RULES` passed explicitly: some rule has all of its tokens
as substrings of the lowercased text. -/
def matchesKeywords (rules : List (List String)) (text : String) : Bool :=
  let t := lowerS text
  rules.any (fun tokens => tokens.all (fun tok => strIncl tok.toList t.toList))

/-!
Section: persistent notification state (src/index.js lines 41-57, 215-229).
-/

/-- The persisted state record: `notified` maps dedup keys to
epoch-millisecond timestamps, `lastHash` maps normalized hrefs to the last
observed content digest. -/
structure ScanState where
  notified : List (String × Int)
  lastHash : List (String × String)
deriving DecidableEq

/-- The function `prune(state)` from src/index.js lines 51-57, with the
globals `NOTIFY_TTL_HOURS` and `Date.now()` passed explicitly: drops every
`notified` entry whose timestamp is below `now - ttl`, touching nothing
else. -/
def prune (st : ScanState) (ttlHours now : Int) : ScanState :=
  let cutoff := now - ttlHours * 3600 * 1000
  { st with notified := st.notified.filter (fun kv => !decide (kv.2 < cutoff)) }

/-- JavaScript truthiness of a looked-up timestamp: `undefined` and `0`
are falsy, every other number is truthy. -/
def truthyTs : Option Int → Bool
  | none => false
  | some v => v != 0

/-- The notify decision from src/index.js line 216,
`if (state.notified[key] && !FORCE_NOTIFY) continue;`: notify unless the
stored timestamp is truthy and the force flag is off. -/
def shouldNotify (st : ScanState) (key : String) (force : Bool) : Bool :=
  !(truthyTs (lookupA st.notified key) && !force)

/-- State update `state.notified[key] = Date.now()` (src/index.js
line 228). -/
def recordNotified (st : ScanState) (key : String) (now : Int) : ScanState :=
  { st with notified := insertA st.notified key now }

/-- The flag `changed = Boolean(lastHash && lastHash !== contentHash)`
from src/index.js line 207: false when no prior digest is stored or the
stored digest is the empty (falsy) string, otherwise a strict
inequality test. -/
def changedFlag (prev : Option String) (cur : String) : Bool :=
  match prev with
  | none => false
  | some p => !(p == "") && p != cur

/-- Dedup-key resolution for one candidate, src/index.js lines 199-213:
for a detail ("event") item with deep checking on, the key is
`norm + "|" + fingerprint`, the changed flag compares against
`state.lastHash[norm]`, and `state.lastHash[norm]` is updated; otherwise
the key is the normalized href and nothing changes. -/
def resolveKey (deepCheck isEvent : Bool) (st : ScanState) (norm contentHash : String) :
    String × Bool × ScanState :=
  if isEvent && deepCheck then
    (norm ++ "|" ++ contentHash, changedFlag (lookupA st.lastHash norm) contentHash,
      { st with lastHash := insertA st.lastHash norm contentHash })
  else (norm, false, st)

/-!
Section: content fingerprinting (src/index.js lines 102-136).
The browser effects are passed as outcome parameters: `newPageOk` is
whether `context.newPage()` (called before the `try`) succeeds, `render`
is the field bundle produced inside the `try` (`none` when navigation or
extraction threw), `closeOk` is whether `page.close()` in the `finally`
succeeds.  A thrown error is `Except.error ()`.
-/

/-- The field bundle extracted by `page.evaluate` on a detail page. -/
structure PageFields where
  title : String
  dates : String
  buttons : String
  prices : String
  body : String
deriving DecidableEq

/-- The digest input built in src/index.js lines 125-127: non-empty
structured fields joined by `' || '`, then the body appended after one
more `' || '`. -/
def fpInput (f : PageFields) : String :=
  String.intercalate " || " (([f.title, f.dates, f.buttons, f.prices]).filter
    (fun s => s != "")) ++ " || " ++ f.body

/-- The function `fingerprintEventPage(context, href)` from src/index.js
lines 102-136: a `newPage` failure propagates (it happens before the
`try`); a render failure is caught and falls back to `hash(href)`; a
`close` failure in the `finally` propagates and replaces the result. -/
def fingerprintEventPage (newPageOk : Bool) (render : Option PageFields) (closeOk : Bool)
    (href : String) : Except Unit String :=
  if !newPageOk then Except.error ()
  else
    let r := match render with
      | some f => hash (fpInput f)
      | none => hash href
    if !closeOk then Except.error () else Except.ok r

/-!
Section: the per-target candidate loop of `checkOnce`
(src/index.js lines 172-236).
External effects are parameters: `isEventOf` is the detail-URL regex test,
`fpOf` the fingerprint obtained for a candidate, `sendOk` whether the
notifier delivery succeeds.  `runCandidates` models the `for (const item
of unique)` loop inside the per-target `try`: a failed send throws, which
aborts the loop (third component `true`); `runTargets` models the target
loop whose `catch` swallows the error and moves to the next target.
-/

/-- A candidate link with its precomputed normalized href
(src/index.js lines 190-195). -/
structure Cand where
  href : String
  text : String
  normHref : String
deriving DecidableEq

/-- The candidate loop, src/index.js lines 198-231.  Returns the final
state, the dedup keys notified in order, and whether an error escaped and
aborted the loop. -/
def runCandidates (deep force : Bool) (isEventOf : Cand → Bool) (fpOf : Cand → String)
    (sendOk : Cand → Bool) (now : Int) :
    ScanState → List Cand → ScanState × List String × Bool
  | st, [] => (st, [], false)
  | st, c :: rest =>
      let r := resolveKey deep (isEventOf c) st c.normHref (fpOf c)
      let st1 := r.2.2
      if !shouldNotify st1 r.1 force then
        runCandidates deep force isEventOf fpOf sendOk now st1 rest
      else if sendOk c then
        let res := runCandidates deep force isEventOf fpOf sendOk now
          (recordNotified st1 r.1 now) rest
        (res.1, r.1 :: res.2.1, res.2.2)
      else (st1, [], true)

/-- The target loop of `checkOnce`, src/index.js lines 172-236: each
target's candidate run happens inside a `try` whose `catch` only logs, so
the loop always continues with the next target.  Returns the final state
and each target's list of notified keys. -/
def runTargets (deep force : Bool) (isEventOf : Cand → Bool) (fpOf : Cand → String)
    (sendOk : Cand → Bool) (now : Int) :
    ScanState → List (List Cand) → ScanState × List (List String)
  | st, [] => (st, [])
  | st, cs :: rest =>
      let r := runCandidates deep force isEventOf fpOf sendOk now st cs
      let res := runTargets deep force isEventOf fpOf sendOk now r.1 rest
      (res.1, r.2.1 :: res.2)

/-!
Section: helper lemmas.
-/

theorem lookupA_insertA_self {α : Type} (m : List (String × α)) (k : String) (v : α) :
    lookupA (insertA m k v) k = some v := by
  induction m with
  | nil => simp [insertA, lookupA]
  | cons hd t ih =>
      obtain ⟨k', v'⟩ := hd
      by_cases h : k' = k
      · simp [insertA, h, lookupA]
      · simp [insertA, h, lookupA, ih]

theorem lookupA_eq_none_of_not_mem {α : Type} (m : List (String × α)) (k : String)
    (h : k ∉ m.map Prod.fst) : lookupA m k = none := by
  induction m with
  | nil => rfl
  | cons hd t ih =>
      obtain ⟨k', v'⟩ := hd
      simp only [List.map_cons, List.mem_cons] at h
      push_neg at h
      have hne : ¬ k' = k := fun he => h.1 he.symm
      simp [lookupA, hne, ih h.2]

/-- Lookup on a value-filtered association list with no duplicate keys is
`Option.filter` of the plain lookup. -/
theorem lookupA_filter {α : Type} (p : α → Bool) (m : List (String × α)) (k : String)
    (hnd : (m.map Prod.fst).Nodup) :
    lookupA (m.filter (fun kv => p kv.2)) k = Option.filter p (lookupA m k) := by
  induction m with
  | nil => rfl
  | cons hd t ih =>
      obtain ⟨k', v'⟩ := hd
      simp only [List.map_cons, List.nodup_cons] at hnd
      by_cases h : k' = k
      · subst h
        by_cases hp : p v'
        · simp [List.filter, hp, lookupA, Option.filter]
        · have hnone : lookupA (t.filter (fun kv => p kv.2)) k' = none := by
            apply lookupA_eq_none_of_not_mem
            intro hmem
            exact hnd.1 (by
              simp only [List.mem_map] at hmem ⊢
              obtain ⟨kv, hkv, hfst⟩ := hmem
              exact ⟨kv, (List.mem_filter.mp hkv).1, hfst⟩)
          simp [List.filter, hp, lookupA, Option.filter, hnone]
      · by_cases hp : p v'
        · simp [List.filter, hp, lookupA, h, ih hnd.2]
        · simp [List.filter, hp, lookupA, h, ih hnd.2]

theorem toInt32_range (n : Int) :
    -2147483648 ≤ toInt32 n ∧ toInt32 n < 2147483648 := by
  unfold toInt32
  have h1 : 0 ≤ n % 4294967296 := Int.emod_nonneg n (by decide)
  have h2 : n % 4294967296 < 4294967296 := Int.emod_lt_of_pos n (by decide)
  dsimp only
  split <;> omega

theorem hashStep_range (h : Int) (c : Nat) :
    -2147483648 ≤ hashStep h c ∧ hashStep h c < 2147483648 :=
  toInt32_range _

theorem hash_foldl_range (l : List Char) :
    ∀ h : Int, -2147483648 ≤ h → h < 2147483648 →
      -2147483648 ≤ l.foldl (fun h c => hashStep h c.toNat) h ∧
        l.foldl (fun h c => hashStep h c.toNat) h < 2147483648 := by
  induction l with
  | nil => intro h h1 h2; exact ⟨h1, h2⟩
  | cons c t ih =>
      intro h _ _
      simpa using ih (hashStep h c.toNat) (hashStep_range h c.toNat).1
        (hashStep_range h c.toNat).2

/-!
Section: character-level facts about `Char.toLower`, needed to reason
about the case-normalization the URL parser applies to scheme and host.
-/

theorem toLower_def (c : Char) :
    c.toLower = if c.toNat ≥ 65 ∧ c.toNat ≤ 90 then Char.ofNat (c.toNat + 32) else c := rfl

theorem toLower_of_upper {c : Char} (h1 : 65 ≤ c.toNat) (h2 : c.toNat ≤ 90) :
    97 ≤ c.toLower.toNat ∧ c.toLower.toNat ≤ 122 := by
  rw [toLower_def, if_pos ⟨h1, h2⟩]
  revert h1 h2
  generalize c.toNat = n
  intro h1 h2
  interval_cases n <;> exact ⟨by decide, by decide⟩

theorem toLower_cases (c : Char) :
    c.toLower = c ∨ (97 ≤ c.toLower.toNat ∧ c.toLower.toNat ≤ 122) := by
  by_cases h : c.toNat ≥ 65 ∧ c.toNat ≤ 90
  · exact Or.inr (toLower_of_upper h.1 h.2)
  · exact Or.inl (by rw [toLower_def, if_neg h])

theorem toLower_toLower (c : Char) : c.toLower.toLower = c.toLower := by
  rcases toLower_cases c with h | h
  · rw [h]; exact h
  · rw [toLower_def c.toLower, if_neg (by omega)]

theorem bne_of_toNat_ne {c d : Char} (h : c.toNat ≠ d.toNat) : (c != d) = true := by
  simp only [bne_iff_ne, ne_eq]
  intro he
  exact h (he ▸ rfl)

theorem schemeChar_toLower {c : Char} (h : schemeChar c = true) :
    schemeChar c.toLower = true := by
  simp only [schemeChar, Bool.or_eq_true, Bool.and_eq_true, decide_eq_true_eq] at h ⊢
  rcases h with h | h
  · exact Or.inr (toLower_of_upper h.1 h.2)
  · rw [toLower_def, if_neg (by omega)]
    exact Or.inr h

theorem schemeChar_ne_colon {c : Char} (h : schemeChar c = true) : (c != ':') = true := by
  apply bne_of_toNat_ne
  simp only [schemeChar, Bool.or_eq_true, Bool.and_eq_true, decide_eq_true_eq] at h
  intro he
  rw [show (':' : Char).toNat = 58 from rfl] at he
  omega

theorem hostChar_toLower {c : Char} (h : hostChar c = true) :
    hostChar c.toLower = true := by
  rcases toLower_cases c with hc | hc
  · rw [hc]; exact h
  · simp only [hostChar, Bool.and_eq_true]
    refine ⟨⟨bne_of_toNat_ne ?_, bne_of_toNat_ne ?_⟩, bne_of_toNat_ne ?_⟩ <;>
      · intro he
        rw [he] at hc
        revert hc
        decide

/-- Lemma: `takeWhile` and `dropWhile` split a list at the first marker
failing the predicate. -/
theorem takeWhile_marker (q : Char → Bool) (l : List Char) (c : Char) (r : List Char)
    (hl : l.all q = true) (hc : q c = false) :
    (l ++ c :: r).takeWhile q = l ∧ (l ++ c :: r).dropWhile q = c :: r := by
  induction l with
  | nil => simp [List.takeWhile, List.dropWhile, hc]
  | cons a t ih =>
      simp only [List.all_cons, Bool.and_eq_true] at hl
      have := ih hl.2
      simp [List.takeWhile, List.dropWhile, hl.1, this.1, this.2]

theorem takeWhile_of_all {q : Char → Bool} {l : List Char} (hl : l.all q = true) :
    l.takeWhile q = l := by
  induction l with
  | nil => rfl
  | cons a t ih =>
      simp only [List.all_cons, Bool.and_eq_true] at hl
      simp [List.takeWhile, hl.1, ih hl.2]

theorem all_takeWhile (q : Char → Bool) (l : List Char) :
    (l.takeWhile q).all q = true := by
  induction l with
  | nil => rfl
  | cons a t ih =>
      by_cases h : q a
      · simp [List.takeWhile, h, ih]
      · simp [List.takeWhile, h]

/-- Everything a successful parse tells us about its output. -/
theorem parseURL_inv {cs o p : List Char} (h : parseURL cs = some (o, p)) :
    ∃ sch host : List Char,
      sch ≠ [] ∧ sch.all schemeChar = true ∧ host ≠ [] ∧ host.all hostChar = true ∧
      o = sch.map Char.toLower ++ ':' :: '/' :: '/' :: host.map Char.toLower ∧
      p.head? = some '/' ∧ p.all pathChar = true := by
  simp only [parseURL] at h
  by_cases e1 : (cs.takeWhile (fun c => c != ':')).isEmpty = true
  · simp [e1] at h
  by_cases e2 : (cs.takeWhile (fun c => c != ':')).all schemeChar = true
  case neg => simp [e1, e2] at h
  by_cases e3 : (cs.dropWhile (fun c => c != ':')).take 3 = [':', '/', '/']
  case neg => simp [e1, e2, e3] at h
  by_cases e4 :
      (((cs.dropWhile (fun c => c != ':')).drop 3).takeWhile hostChar).isEmpty = true
  · simp [e1, e2, e3, e4] at h
  rw [if_neg e1, if_neg (by simp [e2]), if_pos e3, if_neg e4, Option.some.injEq,
    Prod.mk.injEq] at h
  refine ⟨cs.takeWhile (fun c => c != ':'),
    ((cs.dropWhile (fun c => c != ':')).drop 3).takeWhile hostChar,
    fun he => e1 (by simp [he]), e2, fun he => e4 (by simp [he]),
    all_takeWhile _ _, h.1.symm, ?_, ?_⟩ <;> rw [← h.2] <;>
    by_cases e5 :
      (((cs.dropWhile (fun c => c != ':')).drop 3).dropWhile hostChar).head? = some '/'
  · rw [if_pos e5]
    obtain ⟨t, hrt⟩ : ∃ t, ((cs.dropWhile (fun c => c != ':')).drop 3).dropWhile hostChar
        = '/' :: t := by
      cases hr : ((cs.dropWhile (fun c => c != ':')).drop 3).dropWhile hostChar with
      | nil => rw [hr] at e5; simp at e5
      | cons a t =>
          rw [hr] at e5
          simp only [List.head?, Option.some.injEq] at e5
          exact ⟨t, by rw [e5]⟩
    rw [hrt]
    simp [List.takeWhile, pathChar]
  · rw [if_neg e5]; rfl
  · rw [if_pos e5]; exact all_takeWhile _ _
  · rw [if_neg e5]; rfl

/-- Parsing a string assembled from a well-formed scheme, host and path
succeeds and lowercases scheme and host. -/
theorem parseURL_build {sch host p : List Char}
    (h1 : sch ≠ []) (h2 : sch.all schemeChar = true) (h3 : host ≠ [])
    (h4 : host.all hostChar = true) (h5 : p.head? = some '/') (h6 : p.all pathChar = true) :
    parseURL (sch ++ ':' :: '/' :: '/' :: (host ++ p)) =
      some (sch.map Char.toLower ++ ':' :: '/' :: '/' :: host.map Char.toLower, p) := by
  obtain ⟨p', rfl⟩ : ∃ p', p = '/' :: p' := by
    cases p with
    | nil => simp at h5
    | cons a t =>
        simp only [List.head?, Option.some.injEq] at h5
        exact ⟨t, by rw [h5]⟩
  have hcolon : sch.all (fun c => c != ':') = true := by
    rw [List.all_eq_true] at h2 ⊢
    exact fun c hc => schemeChar_ne_colon (h2 c hc)
  have tw1 := takeWhile_marker (fun c => c != ':') sch ':'
    ('/' :: '/' :: (host ++ '/' :: p')) hcolon (by decide)
  have tw2 := takeWhile_marker hostChar host '/' p' h4 (by decide)
  simp only [parseURL]
  rw [tw1.1, tw1.2, if_neg (by simp [List.isEmpty_iff, h1]), if_neg (by simp [h2]),
    if_pos (by simp), show (':' :: '/' :: '/' :: (host ++ '/' :: p')).drop 3
      = host ++ '/' :: p' from rfl,
    tw2.1, tw2.2, if_neg (by simp [List.isEmpty_iff, h3]),
    if_pos (show ('/' :: p').head? = some '/' from rfl), takeWhile_of_all h6]

/-- A parsed `(origin, pathname)` pair re-parses to itself. -/
theorem parseURL_reparse {cs o p : List Char} (h : parseURL cs = some (o, p)) :
    parseURL (o ++ p) = some (o, p) := by
  obtain ⟨sch, host, hns, hsc, hnh, hhc, ho, hp5, hp6⟩ := parseURL_inv h
  subst ho
  have hsc' : (sch.map Char.toLower).all schemeChar = true := by
    rw [List.all_eq_true]
    intro c hc
    rw [List.mem_map] at hc
    obtain ⟨a, ha, rfl⟩ := hc
    exact schemeChar_toLower (List.all_eq_true.mp hsc a ha)
  have hhc' : (host.map Char.toLower).all hostChar = true := by
    rw [List.all_eq_true]
    intro c hc
    rw [List.mem_map] at hc
    obtain ⟨a, ha, rfl⟩ := hc
    exact hostChar_toLower (List.all_eq_true.mp hhc a ha)
  have e : (sch.map Char.toLower ++ ':' :: '/' :: '/' :: host.map Char.toLower) ++ p
      = sch.map Char.toLower ++ ':' :: '/' :: '/' :: (host.map Char.toLower ++ p) := by
    simp
  rw [e, parseURL_build (by simpa using hns) hsc' (by simpa using hnh) hhc' hp5 hp6]
  have idem : ∀ l : List Char, (l.map Char.toLower).map Char.toLower = l.map Char.toLower := by
    intro l
    rw [List.map_map]
    exact List.map_congr_left (fun a _ => toLower_toLower a)
  rw [idem, idem]

theorem isPrefOf_iff (nee hay : List Char) : isPrefOf nee hay = true ↔ nee <+: hay := by
  induction nee generalizing hay with
  | nil => simp [isPrefOf]
  | cons a as ih =>
      cases hay with
      | nil => simp [isPrefOf]
      | cons b bs => simp [isPrefOf, List.cons_prefix_cons, ih]

theorem strIncl_iff (nee hay : List Char) : strIncl nee hay = true ↔ nee <:+: hay := by
  induction hay with
  | nil => simp [strIncl, isPrefOf_iff]
  | cons b t ih => simp [strIncl, isPrefOf_iff, ih, List.infix_cons_iff]

theorem normalizeHref_eq_of_parse {x : String} {o p : List Char}
    (h : parseURL x.toList = some (o, p)) : normalizeHref x = String.mk (o ++ p) := by
  unfold normalizeHref
  rw [h]

theorem normalizeHref_eq_of_none {x : String} (h : parseURL x.toList = none) :
    normalizeHref x = x := by
  unfold normalizeHref
  rw [h]

theorem normalizeHref_norm (x : String) :
    normalizeHref (normalizeHref x) = normalizeHref x := by
  cases h : parseURL x.toList with
  | none => rw [normalizeHref_eq_of_none h, normalizeHref_eq_of_none h]
  | some op =>
      obtain ⟨o, p⟩ := op
      have h2 : parseURL (String.mk (o ++ p)).toList = some (o, p) := by
        show parseURL (o ++ p) = some (o, p)
        exact parseURL_reparse h
      rw [normalizeHref_eq_of_parse h, normalizeHref_eq_of_parse h2]

/-!
Section: claim theorems.
-/

/-- C4: the claim says any rule whose token list becomes empty after
trimming is discarded at load time.  The code does not: `filter(Boolean)`
drops empty rule strings and empty tokens, but a rule string such as `"&"`
survives the outer filter and produces the empty token list, which is then
kept, and an empty token list matches every text vacuously — for
`KEYWORDS = "&"` the parsed rule set is `[[]]` and every text (even the
empty one) matches. -/
theorem parseRules_emptyRule_bug :
    parseRules "&" = [[]]
    ∧ matchesKeywords (parseRules "&") "anything at all" = true
    ∧ matchesKeywords (parseRules "&") "" = true := by
  exact ⟨rfl, rfl, rfl⟩

/-- C5: keyword matching returns true iff some rule of the set has every
token a substring of the lowercased text (OR of ANDs), and for the parsed
rule set of `"a&b, c"`: a text with `a` and `b` but no `c` matches, a text
with only `a` does not, a text with `c` alone matches. -/
theorem matchesKeywords_spec :
    (∀ (rules : List (List String)) (text : String),
      matchesKeywords rules text = true ↔
        ∃ tokens ∈ rules, ∀ tok ∈ tokens, tok.toList <:+: (lowerS text).toList)
    ∧ matchesKeywords (parseRules "a&b, c") "qaqbq" = true
    ∧ matchesKeywords (parseRules "a&b, c") "qaq" = false
    ∧ matchesKeywords (parseRules "a&b, c") "qcq" = true := by
  refine ⟨fun rules text => ?_, by decide, by decide, by decide⟩
  simp only [matchesKeywords, List.any_eq_true, List.all_eq_true, strIncl_iff]

/-- C5 witness: the characterization applied at the concrete rule set
of `"a&b, c"` and the text `"qcq"`. -/
theorem matchesKeywords_spec_witness :
    matchesKeywords (parseRules "a&b, c") "qcq" = true :=
  (matchesKeywords_spec.1 (parseRules "a&b, c") "qcq").mpr
    ⟨["c"], by decide, fun tok htok => by
      rw [List.mem_singleton.mp htok]
      exact (strIncl_iff _ _).mp (by decide)⟩

/-- C8: `normalizeHref` is total; when the href parses it returns origin
plus pathname — a path containing no query or fragment delimiter and
starting with `/` — and when parsing fails it returns the input
unchanged. -/
theorem normalizeHref_spec :
    (∀ href : String,
      (parseURL href.toList = none ∧ normalizeHref href = href)
      ∨ ∃ o p : List Char, parseURL href.toList = some (o, p)
          ∧ normalizeHref href = String.mk (o ++ p)
          ∧ p.all pathChar = true ∧ p.head? = some '/')
    ∧ normalizeHref "https://a.b/c?q=1#f" = "https://a.b/c"
    ∧ normalizeHref "nota url" = "nota url" := by
  refine ⟨fun href => ?_, by decide, by decide⟩
  cases h : parseURL href.toList with
  | none => exact Or.inl ⟨rfl, normalizeHref_eq_of_none h⟩
  | some op =>
      obtain ⟨o, p⟩ := op
      obtain ⟨sch, host, -, -, -, -, -, hp5, hp6⟩ := parseURL_inv h
      exact Or.inr ⟨o, p, rfl, normalizeHref_eq_of_parse h, hp6, hp5⟩

/-- C9: normalization is idempotent, and two hrefs differing only in the
query string and fragment normalize to the same key. -/
theorem normalizeHref_idem :
    (∀ x : String, normalizeHref (normalizeHref x) = normalizeHref x)
    ∧ normalizeHref "https://s.kz/p?x=1#y" = normalizeHref "https://s.kz/p?x=2" := by
  exact ⟨normalizeHref_norm, by decide⟩

/-- C9 witness: idempotence applied at a concrete href. -/
theorem normalizeHref_idem_witness :
    normalizeHref (normalizeHref "https://w.example/q?a=1") =
      normalizeHref "https://w.example/q?a=1" :=
  normalizeHref_idem.1 "https://w.example/q?a=1"

/-- C10: the digest is a total function on strings whose result is always
the decimal rendering of a 32-bit signed integer, and the empty (falsy)
string digests to `"0"`. -/
theorem hash_spec :
    hash "" = "0"
    ∧ ∀ s : String, ∃ n : Int,
        -2147483648 ≤ n ∧ n < 2147483648 ∧ hash s = toString n := by
  refine ⟨rfl, fun s => ?_⟩
  by_cases h : s = ""
  · refine ⟨0, by decide, by decide, ?_⟩
    rw [h]
    rfl
  · have hr := hash_foldl_range s.toList 0 (by decide) (by decide)
    refine ⟨_, hr.1, hr.2, ?_⟩
    simp [hash, h]

/-- C10 witness: the digest of the empty string. -/
theorem hash_spec_witness : hash "" = "0" := hash_spec.1

/-- C1 counterexample: a dedup key present in `notified` with timestamp
`0` and the force flag off is claimed to yield a false decision, but the
code tests JavaScript truthiness of the stored value, and `0` is falsy, so
the decision is true. -/
theorem shouldNotify_presentZero_cex :
    lookupA (ScanState.mk [("k", 0)] []).notified "k" = some 0
    ∧ shouldNotify ⟨[("k", 0)], []⟩ "k" false = true := by
  exact ⟨rfl, rfl⟩

/-- C1 amended: the decision is true iff the force flag is set, the key
is absent, or the stored timestamp is `0`; and with the force flag off, a
decision followed by recording a nonzero timestamp yields true then
false. -/
theorem shouldNotify_spec :
    ∀ (st : ScanState) (key : String) (force : Bool) (now : Int),
      (shouldNotify st key force = true ↔
        force = true ∨ lookupA st.notified key = none ∨ lookupA st.notified key = some 0)
      ∧ (lookupA st.notified key = none → now ≠ 0 →
          shouldNotify st key false = true
          ∧ shouldNotify (recordNotified st key now) key false = false) := by
  intro st key force now
  constructor
  · cases h : lookupA st.notified key with
    | none => cases force <;> simp [shouldNotify, h, truthyTs]
    | some v => cases force <;> simp [shouldNotify, h, truthyTs]
  · intro h1 h2
    refine ⟨by simp [shouldNotify, h1, truthyTs], ?_⟩
    simp [shouldNotify, recordNotified, lookupA_insertA_self, truthyTs, h2]

/-- C1 witness: an absent key notifies, then after recording timestamp
`777` it does not. -/
theorem shouldNotify_spec_witness :
    shouldNotify ⟨[], []⟩ "k2" false = true
    ∧ shouldNotify (recordNotified ⟨[], []⟩ "k2" 777) "k2" false = false :=
  (shouldNotify_spec ⟨[], []⟩ "k2" false 777).2 rfl (by decide)

/-- C2 counterexample: a stored prior fingerprint that is the empty
string exists and differs from the new fingerprint `"5"`, yet the changed
flag is false, because the code tests JavaScript truthiness of the stored
value (`Boolean(lastHash && ...)`) and `""` is falsy. -/
theorem resolveKey_emptyPrior_cex :
    lookupA (ScanState.mk [] [("u", "")]).lastHash "u" = some ""
    ∧ ("" : String) ≠ "5"
    ∧ (resolveKey true true ⟨[], [("u", "")]⟩ "u" "5").2.1 = false := by
  exact ⟨rfl, by decide, rfl⟩

/-- C2 amended: for a detail item with deep checking enabled the dedup
key is `norm + "|" + fingerprint`, the changed flag is true iff a prior
*non-empty* fingerprint existed for the normalized URL and differs from
the new one, the `lastHash` entry is updated and `notified` untouched;
otherwise the key is the normalized URL and the changed flag false. -/
theorem resolveKey_spec :
    ∀ (st : ScanState) (norm fp : String),
      ((resolveKey true true st norm fp).1 = norm ++ "|" ++ fp)
      ∧ ((resolveKey true true st norm fp).2.1 = true ↔
          ∃ prev, lookupA st.lastHash norm = some prev ∧ prev ≠ "" ∧ prev ≠ fp)
      ∧ (lookupA (resolveKey true true st norm fp).2.2.lastHash norm = some fp)
      ∧ ((resolveKey true true st norm fp).2.2.notified = st.notified)
      ∧ (∀ deep isEvent : Bool, (isEvent && deep) = false →
          resolveKey deep isEvent st norm fp = (norm, false, st)) := by
  intro st norm fp
  refine ⟨rfl, ?_, ?_, rfl, ?_⟩
  · cases h : lookupA st.lastHash norm with
    | none => simp [resolveKey, changedFlag, h]
    | some prev =>
        simp [resolveKey, changedFlag, h, bne_iff_ne]
  · simp [resolveKey, lookupA_insertA_self]
  · intro deep isEvent h
    simp [resolveKey, h]

/-- C2 witness: a differing non-empty prior fingerprint sets the changed
flag, the key carries the fingerprint, the new fingerprint is stored, and
without deep checking the key is the bare normalized URL. -/
theorem resolveKey_spec_witness :
    (resolveKey true true ⟨[], [("u2", "old")]⟩ "u2" "new").2.1 = true
    ∧ (resolveKey true true ⟨[], [("u2", "old")]⟩ "u2" "new").1 = "u2" ++ "|" ++ "new"
    ∧ lookupA (resolveKey true true ⟨[], [("u2", "old")]⟩ "u2" "new").2.2.lastHash "u2"
        = some "new"
    ∧ resolveKey false true ⟨[], []⟩ "v2" "x" = ("v2", false, ⟨[], []⟩) := by
  have h := resolveKey_spec ⟨[], [("u2", "old")]⟩ "u2" "new"
  refine ⟨h.2.1.mpr ⟨"old", rfl, by decide, by decide⟩, h.1, h.2.2.1, ?_⟩
  exact (resolveKey_spec ⟨[], []⟩ "v2" "x").2.2.2.2 false true rfl

/-- C3 counterexample: with two candidates on one target and a notifier
that fails on the first, the first candidate's error aborts the whole
candidate loop — the second candidate, which alone would have been
notified, is never notified. -/
theorem candidateError_aborts_cex :
    (runCandidates false false (fun _ => false) (fun _ => "") (fun c => c.normHref != "n1")
        1000 ⟨[], []⟩ [⟨"h1", "t1", "n1"⟩, ⟨"h2", "t2", "n2"⟩]).2.1 = []
    ∧ (runCandidates false false (fun _ => false) (fun _ => "") (fun c => c.normHref != "n1")
        1000 ⟨[], []⟩ [⟨"h1", "t1", "n1"⟩, ⟨"h2", "t2", "n2"⟩]).2.2 = true
    ∧ (runCandidates false false (fun _ => false) (fun _ => "") (fun c => c.normHref != "n1")
        1000 ⟨[], []⟩ [⟨"h2", "t2", "n2"⟩]).2.1 = ["n2"] := by
  exact ⟨rfl, rfl, rfl⟩

/-- C3 amended: an error while processing a candidate is caught at target
granularity: every target in the list still gets processed (one result
entry per target, whatever the send outcomes), but within the failing
target the error aborts the remaining candidates of that target. -/
theorem targetIsolation_spec :
    (∀ (deep force : Bool) (isEventOf : Cand → Bool) (fpOf : Cand → String)
        (sendOk : Cand → Bool) (now : Int) (st : ScanState) (css : List (List Cand)),
        (runTargets deep force isEventOf fpOf sendOk now st css).2.length = css.length)
    ∧ (∀ (deep force : Bool) (isEventOf : Cand → Bool) (fpOf : Cand → String)
        (sendOk : Cand → Bool) (now : Int) (st : ScanState) (c : Cand) (rest : List Cand),
        sendOk c = false →
        shouldNotify (resolveKey deep (isEventOf c) st c.normHref (fpOf c)).2.2
          (resolveKey deep (isEventOf c) st c.normHref (fpOf c)).1 force = true →
        runCandidates deep force isEventOf fpOf sendOk now st (c :: rest)
          = ((resolveKey deep (isEventOf c) st c.normHref (fpOf c)).2.2, [], true)) := by
  constructor
  · intro deep force iE fp sOk now st css
    induction css generalizing st with
    | nil => rfl
    | cons cs rest ih => simp [runTargets, ih]
  · intro deep force iE fp sOk now st c rest h1 h2
    simp [runCandidates, h1, h2]

/-- C3 witness: a failing target still leaves the following target
processed, and a failing send aborts its candidate loop. -/
theorem targetIsolation_spec_witness :
    (runTargets false false (fun _ => false) (fun _ => "") (fun c => c.normHref != "m1")
        500 ⟨[], []⟩ [[⟨"a1", "x", "m1"⟩], [⟨"a2", "y", "m2"⟩]]).2.length = 2
    ∧ runCandidates false false (fun _ => false) (fun _ => "") (fun c => c.normHref != "m1")
        500 ⟨[], []⟩ [⟨"a1", "x", "m1"⟩]
        = (⟨[], []⟩, [], true) := by
  constructor
  · exact targetIsolation_spec.1 false false (fun _ => false) (fun _ => "")
      (fun c => c.normHref != "m1") 500 ⟨[], []⟩ [[⟨"a1", "x", "m1"⟩], [⟨"a2", "y", "m2"⟩]]
  · exact targetIsolation_spec.2 false false (fun _ => false) (fun _ => "")
      (fun c => c.normHref != "m1") 500 ⟨[], []⟩ ⟨"a1", "x", "m1"⟩ [] rfl rfl

/-- C6: pruning drops exactly the `notified` entries with timestamps
older than `now - ttl`, keeps the rest unchanged, and leaves
`lastFingerprint` (`lastHash`) untouched. -/
theorem prune_spec :
    ∀ (st : ScanState) (ttlHours now : Int),
      (st.notified.map Prod.fst).Nodup →
      (∀ k, lookupA (prune st ttlHours now).notified k
          = Option.filter (fun ts => !decide (ts < now - ttlHours * 3600 * 1000))
              (lookupA st.notified k))
      ∧ (prune st ttlHours now).lastHash = st.lastHash := by
  intro st ttl now hnd
  refine ⟨fun k => ?_, rfl⟩
  show lookupA (st.notified.filter (fun kv => !decide (kv.2 < now - ttl * 3600 * 1000))) k = _
  exact lookupA_filter (fun ts => !decide (ts < now - ttl * 3600 * 1000)) st.notified k hnd

/-- C6 witness: with a 1-hour TTL at `now = 9000000000`, the entry stamped
`5` is pruned, the entry stamped `9000000000` survives, and `lastHash` is
untouched. -/
theorem prune_spec_witness :
    lookupA (prune ⟨[("a", 5), ("b", 9000000000)], [("u", "f")]⟩ 1 9000000000).notified "a"
        = none
    ∧ lookupA (prune ⟨[("a", 5), ("b", 9000000000)], [("u", "f")]⟩ 1 9000000000).notified "b"
        = some 9000000000
    ∧ (prune ⟨[("a", 5), ("b", 9000000000)], [("u", "f")]⟩ 1 9000000000).lastHash
        = [("u", "f")] := by
  have h := prune_spec ⟨[("a", 5), ("b", 9000000000)], [("u", "f")]⟩ 1 9000000000 (by decide)
  refine ⟨?_, ?_, h.2⟩
  · rw [h.1 "a"]
    decide
  · rw [h.1 "b"]
    decide

/-- C7 counterexample: the claim says fingerprinting never raises, but
`context.newPage()` runs before the `try`, and `page.close()` runs in the
`finally`; a failure in either propagates to the caller. -/
theorem fingerprintEventPage_newPage_cex :
    fingerprintEventPage false (some ⟨"t", "d", "b", "p", "bd"⟩) true "h" = Except.error ()
    ∧ fingerprintEventPage true (some ⟨"t", "d", "b", "p", "bd"⟩) false "h"
        = Except.error () := by
  exact ⟨rfl, rfl⟩

/-- C7 amended: provided page creation and page close succeed,
fingerprinting never raises: a navigation/extraction failure is caught
and the digest of the raw href alone is returned, a successful render
yields the digest of the assembled field string. -/
theorem fingerprintEventPage_spec :
    ∀ (render : Option PageFields) (href : String),
      (∃ s : String, fingerprintEventPage true render true href = Except.ok s)
      ∧ fingerprintEventPage true none true href = Except.ok (hash href)
      ∧ (∀ f : PageFields, fingerprintEventPage true (some f) true href
          = Except.ok (hash (fpInput f))) := by
  intro render href
  refine ⟨?_, rfl, fun f => rfl⟩
  cases render with
  | none => exact ⟨hash href, rfl⟩
  | some f => exact ⟨hash (fpInput f), rfl⟩

/-- C7 witness: the fallback digest at a concrete failed render. -/
theorem fingerprintEventPage_spec_witness :
    fingerprintEventPage true none true "hw" = Except.ok (hash "hw") :=
  (fingerprintEventPage_spec none "hw").2.1

end Watch
